import Mathlib

/-!
# Verification of the vyer delay-aggregation and station-name-reconciliation pipeline

Shallow embedding of `railway-3d/src/delays/delay-fetcher.ts`,
`railway-3d/src/delays/delay-types.ts` and the station table of
`railway-3d/src/data/railway-data.ts`.

Modelling conventions:
* JavaScript strings are Lean `String`s; the character-level work is done on
  `String.data : List Char`.
* `String.prototype.toLowerCase()` is modelled by `lowerChar`, covering the
  ASCII letters plus the Norwegian letters `Å`, `Ø`, `Æ` (the only non-ASCII
  uppercase letters appearing in the repository's data).
* The regular expressions `/\s+stasjon$/i` and `/\s+s$/i` (applied to an
  already lower-cased string) are modelled by `stripSuffixWithSpaces`: if the
  string ends with the word preceded by at least one whitespace character, the
  word and the whole preceding whitespace run are removed; otherwise the
  string is unchanged.
* JavaScript numbers holding delay seconds are modelled as `Int`; the average
  `sum / count` is modelled in `ℚ` (exact for every input relevant here).
* A JavaScript `Map` is modelled as an association list with `Map.get`/`set`
  semantics (`lookupSt`, `pushDelay`, `cacheSet`): updating an existing key
  keeps its position, a new key is appended.
-/

namespace Vyer

/-- Uppercase/lowercase pairs used by `lowerChar`: the ASCII alphabet plus the
Norwegian letters found in the canonical station names. -/
def lowerPairs : List (Char × Char) :=
  [('A','a'),('B','b'),('C','c'),('D','d'),('E','e'),('F','f'),('G','g'),
   ('H','h'),('I','i'),('J','j'),('K','k'),('L','l'),('M','m'),('N','n'),
   ('O','o'),('P','p'),('Q','q'),('R','r'),('S','s'),('T','t'),('U','u'),
   ('V','v'),('W','w'),('X','x'),('Y','y'),('Z','z'),
   ('Å','å'),('Ø','ø'),('Æ','æ')]

/-- One character of `String.prototype.toLowerCase()`. -/
def lowerChar (c : Char) : Char :=
  match lowerPairs.find? (fun p => p.1 == c) with
  | some p => p.2
  | none => c

/-- Whitespace as matched by the regex class `\s` and by `String.trim`
(restricted to the usual ASCII whitespace characters). -/
def isSpaceChar (c : Char) : Bool :=
  c == ' ' || c == '\t' || c == '\n' || c == '\r'

/-- `toLowerCase` on the character list of a string. -/
def lowerChars (s : List Char) : List Char := s.map lowerChar

/-- `String.prototype.trim()`: drop leading and trailing whitespace. -/
def trimChars (s : List Char) : List Char :=
  (s.dropWhile isSpaceChar).rdropWhile isSpaceChar

/-- Guard of `/\s+w$/`: the string ends with `w` and the character right
before it is whitespace. -/
def hasStripSuffix (w s : List Char) : Bool :=
  w.reverse.isPrefixOf s.reverse &&
    (match s.reverse.drop w.length with
     | [] => false
     | c :: _ => isSpaceChar c)

/-- `str.replace(/\s+w$/, '')`: remove a trailing `w` together with the whole
whitespace run before it, when present. -/
def stripSuffixWithSpaces (w s : List Char) : List Char :=
  if hasStripSuffix w s then ((s.reverse.drop w.length).dropWhile isSpaceChar).reverse
  else s

/-- Character-level body of `normalizeStationName` (delay-fetcher.ts:105-111):
lower-case, strip one trailing `\s+stasjon`, strip one trailing `\s+s`, trim. -/
def normChars (s : List Char) : List Char :=
  trimChars (stripSuffixWithSpaces ['s'] (stripSuffixWithSpaces "stasjon".data (lowerChars s)))

/-- `normalizeStationName` from delay-fetcher.ts:105-111. -/
def normalizeStationName (name : String) : String :=
  String.mk (normChars name.data)

/-- `needle` occurs contiguously inside `hay`
(JavaScript `hay.includes(needle)` for strings). -/
def isSubstringOf : List Char → List Char → Bool
  | needle, [] => needle.isEmpty
  | needle, c :: t => needle.isPrefixOf (c :: t) || isSubstringOf needle t

/-- The five delay severities of `StationDelayInfo['delayCategory']`
(delay-types.ts:27). -/
inductive DelayCategory where
  | onTime
  | minor
  | moderate
  | severe
  | chaos
deriving DecidableEq, Repr

/-- Position of a category in the severity ordering
on-time < minor < moderate < severe < chaos. -/
def sevRank : DelayCategory → Nat
  | .onTime => 0
  | .minor => 1
  | .moderate => 2
  | .severe => 3
  | .chaos => 4

/-- `DELAY_THRESHOLDS` (delay-types.ts:33-39). -/
def DELAY_THRESHOLDS_ON_TIME : ℚ := 60
def DELAY_THRESHOLDS_MINOR : ℚ := 300
def DELAY_THRESHOLDS_MODERATE : ℚ := 600
def DELAY_THRESHOLDS_SEVERE : ℚ := 1200

/-- `getDelayCategory` (delay-types.ts:44-51). -/
def getDelayCategory (delaySeconds : ℚ) : DelayCategory :=
  let absDelay := |delaySeconds|
  if absDelay < DELAY_THRESHOLDS_ON_TIME then .onTime
  else if absDelay < DELAY_THRESHOLDS_MINOR then .minor
  else if absDelay < DELAY_THRESHOLDS_MODERATE then .moderate
  else if absDelay < DELAY_THRESHOLDS_SEVERE then .severe
  else .chaos

/-- `Object.keys(railwayData.stations)` in insertion order
(railway-data.ts:12-...): the canonical station names. -/
def railwayStations : List String :=
  ["Oslo S", "Nationaltheatret", "Skøyen", "Lysaker", "Sandvika", "Asker",
   "Loenga", "Ski", "Ås", "Vestby", "Moss", "Rygge", "Fredrikstad",
   "Sarpsborg", "Halden", "Kornsjø", "Spydeberg", "Askim", "Mysen",
   "Rakkestad", "Grefsen", "Nydalen", "Roa", "Lunner", "Gjøvik", "Drammen",
   "Sande", "Holmestrand", "Tønsberg", "Sandefjord", "Larvik", "Porsgrunn",
   "Skien", "Notodden", "Mjøndalen", "Hokksund", "Vikersund", "Hønefoss",
   "Nesbyen", "Gol", "Ål", "Geilo", "Ustaoset", "Haugastøl", "Finse",
   "Hallingskeid", "Myrdal", "Voss", "Dale", "Arna", "Bergen",
   "Vatnahalsen", "Kjosfossen", "Berekvam", "Flåm", "Lillestrøm", "Dal",
   "Eidsvoll", "Minnesund", "Tangen", "Hamar", "Brumunddal", "Moelv",
   "Lillehammer", "Vinstra", "Otta", "Dombås", "Lesja", "Bjorli",
   "Åndalsnes", "Oppdal", "Støren", "Trondheim S", "Elverum", "Koppang",
   "Tynset", "Røros", "Os", "Steinkjer", "Grong", "Mosjøen", "Mo i Rana",
   "Rognan", "Fauske", "Bodø", "Kongsberg", "Nordagutu", "Bø", "Lunde",
   "Kristiansand", "Vennesla", "Marnardal", "Egersund", "Sandnes",
   "Stavanger", "Hell", "Hegra", "Meråker", "Storlien"]

/-- Exact-pass predicate of `find3DStationName`: the canonical name's
normalized form equals the normalized external name. -/
def exactMatch (normalized : String) (stationName : String) : Bool :=
  normalizeStationName stationName == normalized

/-- Partial-pass predicate of `find3DStationName`: substring containment in
either direction between the normalized forms. -/
def substrMatch (normalized : String) (stationName : String) : Bool :=
  isSubstringOf normalized.data (normalizeStationName stationName).data ||
    isSubstringOf (normalizeStationName stationName).data normalized.data

/-- `find3DStationName` (delay-fetcher.ts:116-135), generalized over the
canonical station list iterated by `Object.keys(railwayData.stations)`:
first loop returns the first exact normalized match, second loop the first
substring match, else `null`. -/
def find3DStationNameIn (stations : List String) (apiStationName : String) :
    Option String :=
  let normalized := normalizeStationName apiStationName
  match stations.find? (exactMatch normalized) with
  | some stationName => some stationName
  | none => stations.find? (substrMatch normalized)

/-- `find3DStationName` on the actual canonical station set. -/
def find3DStationName (apiStationName : String) : Option String :=
  find3DStationNameIn railwayStations apiStationName

/-- `TransitJourney` (delay-types.ts:8-17). -/
structure TransitJourney where
  vehicle_journey_id : String
  line_ref : String
  last_stop_name : String
  aimed_last_stop_time : String
  actual_last_stop_time : String
  recorded_delay_seconds : Int
  next_stop_name : String
  aimed_next_stop_time : String
deriving DecidableEq, Repr

/-- `StationDelayInfo` (delay-types.ts:22-28); `avgDelay` is the JavaScript
floating-point quotient, modelled exactly in `ℚ`. -/
structure StationDelayInfo where
  stationName : String
  avgDelay : ℚ
  maxDelay : Int
  journeyCount : Nat
  delayCategory : DelayCategory
deriving DecidableEq, Repr

/-- Value type of the intermediate `stationMap` in
`aggregateDelaysByStation`: `{ delays: number[]; count: number }`. -/
structure StAcc where
  delays : List Int
  count : Nat
deriving DecidableEq, Repr

/-- `stationMap.get(k)` on the association-list model of a JavaScript `Map`. -/
def lookupSt (m : List (String × StAcc)) (k : String) : Option StAcc :=
  (m.find? (fun p => p.1 == k)).map (fun p => p.2)

/-- The combined effect on `stationMap` of one `if (!has) set; get; push;
count++` block (delay-fetcher.ts:148-153): append the delay to an existing
entry in place, or append a fresh one-delay entry at the end. -/
def pushDelay (m : List (String × StAcc)) (k : String) (d : Int) :
    List (String × StAcc) :=
  match m with
  | [] => [(k, ⟨[d], 1⟩)]
  | (k', acc) :: rest =>
    if k' == k then (k', ⟨acc.delays ++ [d], acc.count + 1⟩) :: rest
    else (k', acc) :: pushDelay rest k d

/-- The station/delay pairs one journey record adds to `stationMap`
(delay-fetcher.ts:144-166): the resolved last stop, then the resolved next
stop unless it equals the resolved last stop. -/
def journeyContributions (stations : List String) (j : TransitJourney) :
    List (String × Int) :=
  let lastStation := find3DStationNameIn stations j.last_stop_name
  let fromLast := match lastStation with
    | some s => [(s, j.recorded_delay_seconds)]
    | none => []
  let fromNext := match find3DStationNameIn stations j.next_stop_name with
    | some s => if lastStation = some s then [] else [(s, j.recorded_delay_seconds)]
    | none => []
  fromLast ++ fromNext

/-- The `journeys.forEach` body of `aggregateDelaysByStation`
(delay-fetcher.ts:144-166) for one journey. -/
def processJourney (stations : List String) (m : List (String × StAcc))
    (j : TransitJourney) : List (String × StAcc) :=
  let lastStation := find3DStationNameIn stations j.last_stop_name
  let m1 := match lastStation with
    | some s => pushDelay m s j.recorded_delay_seconds
    | none => m
  match find3DStationNameIn stations j.next_stop_name with
  | some s => if lastStation = some s then m1 else pushDelay m1 s j.recorded_delay_seconds
  | none => m1

/-- `data.delays.reduce((sum, d) => sum + d, 0)`. -/
def sumDelays (delays : List Int) : Int := delays.foldl (· + ·) 0

/-- `Math.max(...delays)`. With no arguments `Math.max` yields `-Infinity`;
that case never arises here because every `stationMap` entry is created with
its first delay (see the aggregate invariants below), so the `[]` case is
given an arbitrary value. -/
def jsMaxInt : List Int → Int
  | [] => 0
  | d :: ds => ds.foldl max d

/-- The statistics pass of `aggregateDelaysByStation`
(delay-fetcher.ts:168-181) for one `stationMap` entry. -/
def mkInfo (stationName : String) (acc : StAcc) : StationDelayInfo :=
  let avgDelay : ℚ := (sumDelays acc.delays : ℚ) / (acc.count : ℚ)
  { stationName := stationName
    avgDelay := avgDelay
    maxDelay := jsMaxInt acc.delays
    journeyCount := acc.count
    delayCategory := getDelayCategory avgDelay }

/-- `aggregateDelaysByStation` (delay-fetcher.ts:140-184), generalized over
the canonical station list; the returned `Map` is the association list in
insertion order. -/
def aggregateDelaysByStation (stations : List String)
    (journeys : List TransitJourney) : List (String × StationDelayInfo) :=
  (journeys.foldl (processJourney stations) []).map
    (fun p => (p.1, mkInfo p.1 p.2))

/-- Key lookup in the aggregated result. -/
def lookupInfo (m : List (String × StationDelayInfo)) (k : String) :
    Option StationDelayInfo :=
  (m.find? (fun p => p.1 == k)).map (fun p => p.2)

/-- All delays contributed to canonical station `k` by `journeys`, in
contribution order: the specification-level reading of the `stationMap`
entry built by `aggregateDelaysByStation`. -/
def contribDelays (stations : List String) (journeys : List TransitJourney)
    (k : String) : List Int :=
  ((journeys.flatMap (journeyContributions stations)).filter
      (fun p => p.1 == k)).map (fun p => p.2)

/-- Fold a list of delays for one key into an optional `stationMap` entry,
one `pushDelay` effect at a time. -/
def appendAcc (o : Option StAcc) (ds : List Int) : Option StAcc :=
  ds.foldl (fun o d =>
    match o with
    | none => some ⟨[d], 1⟩
    | some a => some ⟨a.delays ++ [d], a.count + 1⟩) o

/-- `stationName.toLowerCase()` as a whole-string operation. -/
def toLowerStr (s : String) : String := String.mk (lowerChars s.data)

/-- JavaScript `a.includes(b)` on strings. -/
def strIncludes (a b : String) : Bool := isSubstringOf b.data a.data

/-- JavaScript `a.endsWith(b)`. -/
def strEndsWith (a b : String) : Bool := b.data.reverse.isPrefixOf a.data.reverse

/-- JavaScript `s.slice(0, -2)`: the string without its last two characters. -/
def sliceDropLast2 (s : String) : String := String.mk s.data.dropLast.dropLast

/-- Worker for `dedupFirst`: skip elements already seen. -/
def dedupFirstAux (seen : List String) : List String → List String
  | [] => []
  | x :: xs =>
    if seen.contains x then dedupFirstAux seen xs
    else x :: dedupFirstAux (x :: seen) xs

/-- `[...new Set(variations)]`: remove duplicates keeping the first
occurrence of each element, preserving order. -/
def dedupFirst (l : List String) : List String := dedupFirstAux [] l

/-- `generateStationNameVariations` (delay-fetcher.ts:18-46). -/
def generateStationNameVariations (stationName : String) : List String :=
  let variations1 := [stationName]
  let variations2 :=
    if !(strIncludes (toLowerStr stationName) "stasjon") then
      variations1 ++ [stationName ++ " stasjon"] ++
        (if strEndsWith stationName " S" then
          [sliceDropLast2 stationName ++ " stasjon", sliceDropLast2 stationName]
         else [])
    else variations1
  let variations3 :=
    variations2 ++ (if strEndsWith stationName " S" then [sliceDropLast2 stationName] else [])
  let variations4 := variations3 ++ [toLowerStr stationName]
  dedupFirst variations4

/-- The `stationNameCache : Map<string, string | null>`
(delay-fetcher.ts:13), as an association list: the value `none` is the
not-found sentinel `null`, absence of a key means the station was never
resolved. -/
def lookupCache (cache : List (String × Option String)) (k : String) :
    Option (Option String) :=
  (cache.find? (fun p => p.1 == k)).map (fun p => p.2)

/-- JavaScript `Map.set`: overwrite an existing key in place, else append. -/
def cacheSet (cache : List (String × Option String)) (k : String)
    (v : Option String) : List (String × Option String) :=
  match cache with
  | [] => [(k, v)]
  | (k', v') :: rest =>
    if k' == k then (k', v) :: rest else (k', v') :: cacheSet rest k v

/-- The probing loop of `findWorkingApiName` (delay-fetcher.ts:87-94).
`probe v = true` models `tryFetchStation(v)` returning a non-empty journey
array (the payload itself is irrelevant to the cache behaviour). Returns the
first working variation (or `none`) together with the number of
`tryFetchStation` calls (HTTP probes) made. -/
def tryVariationsCount (probe : String → Bool) :
    List String → Option String × Nat
  | [] => (none, 0)
  | v :: vs =>
    if probe v then (some v, 1)
    else
      let r := tryVariationsCount probe vs
      (r.1, r.2 + 1)

/-- `findWorkingApiName` (delay-fetcher.ts:78-100): result, updated cache,
and number of HTTP probes issued. A cache hit (working name or not-found
sentinel) returns immediately; otherwise the variations are probed in order
and the outcome — including exhaustion — is recorded in the cache. -/
def findWorkingApiName (probe : String → Bool)
    (cache : List (String × Option String)) (stationName : String) :
    Option String × List (String × Option String) × Nat :=
  match lookupCache cache stationName with
  | some v => (v, cache, 0)
  | none =>
    let r := tryVariationsCount probe (generateStationNameVariations stationName)
    (r.1, cacheSet cache stationName r.1, r.2)

/-- Journey record whose last stop resolves to "Oslo S" (delay 30 s) and
whose next-stop name "Zzz" resolves to no canonical station. -/
def osloJourneyA : TransitJourney :=
  { vehicle_journey_id := "vj-1", line_ref := "L1", last_stop_name := "Oslo S",
    aimed_last_stop_time := "t1", actual_last_stop_time := "t2",
    recorded_delay_seconds := 30, next_stop_name := "Zzz",
    aimed_next_stop_time := "t3" }

/-- Journey record whose next stop resolves to "Oslo S" (delay 90 s) and
whose last-stop name "Zzz" resolves to no canonical station. -/
def osloJourneyB : TransitJourney :=
  { vehicle_journey_id := "vj-2", line_ref := "L2", last_stop_name := "Zzz",
    aimed_last_stop_time := "t4", actual_last_stop_time := "t5",
    recorded_delay_seconds := 90, next_stop_name := "Oslo S",
    aimed_next_stop_time := "t6" }

/-- Journey with delay -90 s contributing to "Oslo S" via its last stop. -/
def negJourneyA : TransitJourney :=
  { vehicle_journey_id := "vj-3", line_ref := "L3", last_stop_name := "Oslo S",
    aimed_last_stop_time := "t1", actual_last_stop_time := "t2",
    recorded_delay_seconds := -90, next_stop_name := "Zzz",
    aimed_next_stop_time := "t3" }

/-- Journey with delay -60 s contributing to "Oslo S" via its next stop. -/
def negJourneyB : TransitJourney :=
  { vehicle_journey_id := "vj-4", line_ref := "L4", last_stop_name := "Zzz",
    aimed_last_stop_time := "t4", actual_last_stop_time := "t5",
    recorded_delay_seconds := -60, next_stop_name := "Oslo S",
    aimed_next_stop_time := "t6" }

/-- Journey whose last-stop name "Oslo S" and next-stop name "Oslo stasjon"
both resolve to the canonical station "Oslo S". -/
def bothOsloJourney : TransitJourney :=
  { vehicle_journey_id := "vj-5", line_ref := "L5", last_stop_name := "Oslo S",
    aimed_last_stop_time := "t1", actual_last_stop_time := "t2",
    recorded_delay_seconds := 42, next_stop_name := "Oslo stasjon",
    aimed_next_stop_time := "t3" }

end Vyer

-- concrete sanity checks of the embedding
example : Vyer.normalizeStationName "Oslo S" = "oslo" := by decide
example : Vyer.normalizeStationName "oslo stasjon" = "oslo" := by decide
example : Vyer.normalizeStationName "  Trondheim S  " = "trondheim s" := by decide
example : Vyer.normalizeStationName "Trondheim S" = "trondheim" := by decide
example : Vyer.normalizeStationName "a stasjon stasjon" = "a stasjon" := by decide
example : Vyer.isSubstringOf "os".data "oslo".data = true := by decide
example : Vyer.isSubstringOf "zzz".data "oslo".data = false := by decide
example : Vyer.find3DStationName "Oslo S" = some "Oslo S" := by decide
example : Vyer.find3DStationName "Oslo stasjon" = some "Oslo S" := by decide
example : Vyer.find3DStationName "Zzz" = none := by decide
example : Vyer.getDelayCategory 60 = .minor := by decide
example : Vyer.getDelayCategory (-45) = .onTime := by decide
example : Vyer.generateStationNameVariations "Oslo S" =
    ["Oslo S", "Oslo S stasjon", "Oslo stasjon", "Oslo", "oslo s"] := by decide
example : Vyer.generateStationNameVariations "Bergen" =
    ["Bergen", "Bergen stasjon", "bergen"] := by decide
example : Vyer.findWorkingApiName (fun _ => true) [("X", none)] "X" =
    (none, [("X", none)], 0) := by decide

namespace Vyer

/-- C6: `getDelayCategory` is a total function into the five categories,
depends only on the absolute value of its input, maps 45, -45, 120, 450, 900,
1500 to on-time, on-time, minor, moderate, severe, chaos, and realizes the
thresholds on-time for `|d| < 60`, minor for `|d| < 300`, moderate for
`|d| < 600`, severe for `|d| < 1200`, chaos otherwise. -/
theorem C6_classify_total_thresholds :
    (∀ d : ℚ, getDelayCategory (-d) = getDelayCategory d)
    ∧ getDelayCategory 45 = .onTime
    ∧ getDelayCategory (-45) = .onTime
    ∧ getDelayCategory 120 = .minor
    ∧ getDelayCategory 450 = .moderate
    ∧ getDelayCategory 900 = .severe
    ∧ getDelayCategory 1500 = .chaos
    ∧ (∀ d : ℚ,
        (getDelayCategory d = .onTime ↔ |d| < 60)
        ∧ (getDelayCategory d = .minor ↔ 60 ≤ |d| ∧ |d| < 300)
        ∧ (getDelayCategory d = .moderate ↔ 300 ≤ |d| ∧ |d| < 600)
        ∧ (getDelayCategory d = .severe ↔ 600 ≤ |d| ∧ |d| < 1200)
        ∧ (getDelayCategory d = .chaos ↔ 1200 ≤ |d|)) := by
  refine ⟨fun d => ?_, by decide, by decide, by decide, by decide, by decide,
    by decide, fun d => ?_⟩
  · simp [getDelayCategory, abs_neg]
  · simp only [getDelayCategory, DELAY_THRESHOLDS_ON_TIME, DELAY_THRESHOLDS_MINOR,
      DELAY_THRESHOLDS_MODERATE, DELAY_THRESHOLDS_SEVERE]
    split_ifs with h1 h2 h3 h4 <;>
      refine ⟨?_, ?_, ?_, ?_, ?_⟩ <;>
        simp only [reduceCtorEq, false_iff, true_iff, not_and, not_lt, not_le] <;>
          first
            | (constructor <;> omega)
            | (intro h; linarith)
            | (refine ⟨by linarith, by linarith⟩)
            | linarith

/-- C7: `getDelayCategory` is monotone in the absolute delay with respect to
the severity ordering on-time < minor < moderate < severe < chaos. -/
theorem C7_classify_monotone (d1 d2 : ℚ) (h : |d1| < |d2|) :
    sevRank (getDelayCategory d1) ≤ sevRank (getDelayCategory d2) := by
  simp only [getDelayCategory, DELAY_THRESHOLDS_ON_TIME, DELAY_THRESHOLDS_MINOR,
    DELAY_THRESHOLDS_MODERATE, DELAY_THRESHOLDS_SEVERE]
  split_ifs <;> simp [sevRank] <;> linarith

theorem C7_classify_monotone_witness :
    |(30 : ℚ)| < |(-1500 : ℚ)|
    ∧ sevRank (getDelayCategory 30) ≤ sevRank (getDelayCategory (-1500)) :=
  ⟨by norm_num, C7_classify_monotone 30 (-1500) (by norm_num)⟩

lemma dedupFirstAux_cons (seen : List String) (x : String) (xs : List String) :
    dedupFirstAux seen (x :: xs) =
      if x ∈ seen then dedupFirstAux seen xs
      else x :: dedupFirstAux (x :: seen) xs := by
  simp [dedupFirstAux]

lemma mem_dedupFirstAux {a : String} :
    ∀ {l seen : List String}, a ∈ dedupFirstAux seen l → a ∈ l ∧ a ∉ seen := by
  intro l
  induction l with
  | nil => intro seen h; simp [dedupFirstAux] at h
  | cons x xs ih =>
    intro seen h
    rw [dedupFirstAux_cons] at h
    by_cases hx : x ∈ seen
    · rw [if_pos hx] at h
      have := @ih seen h
      exact ⟨List.mem_cons_of_mem _ this.1, this.2⟩
    · rw [if_neg hx] at h
      rcases List.mem_cons.mp h with rfl | h'
      · exact ⟨List.mem_cons_self _ _, hx⟩
      · have := @ih (x :: seen) h'
        exact ⟨List.mem_cons_of_mem _ this.1,
          fun hs => this.2 (List.mem_cons_of_mem _ hs)⟩

lemma nodup_dedupFirstAux :
    ∀ (l seen : List String), (dedupFirstAux seen l).Nodup := by
  intro l
  induction l with
  | nil => intro seen; simp [dedupFirstAux]
  | cons x xs ih =>
    intro seen
    rw [dedupFirstAux_cons]
    by_cases hx : x ∈ seen
    · simpa [hx] using ih seen
    · rw [if_neg hx]
      refine List.nodup_cons.mpr ⟨fun hmem => ?_, ih (x :: seen)⟩
      exact (mem_dedupFirstAux hmem).2 (List.mem_cons_self _ _)

/-- C8: `generateStationNameVariations "Oslo S"` contains "Oslo S",
"Oslo stasjon" and "oslo s" with no duplicates, and for every canonical name
the result is non-empty, duplicate-free, and starts with the name itself. -/
theorem C8_generateVariants :
    ("Oslo S" ∈ generateStationNameVariations "Oslo S"
      ∧ "Oslo stasjon" ∈ generateStationNameVariations "Oslo S"
      ∧ "oslo s" ∈ generateStationNameVariations "Oslo S"
      ∧ (generateStationNameVariations "Oslo S").Nodup)
    ∧ (∀ name : String,
        generateStationNameVariations name ≠ []
        ∧ (generateStationNameVariations name).Nodup
        ∧ (generateStationNameVariations name).head? = some name) := by
  refine ⟨by decide, fun name => ?_⟩
  have hshape : ∃ t, generateStationNameVariations name = dedupFirst (name :: t) := by
    unfold generateStationNameVariations
    by_cases h1 : strIncludes (toLowerStr name) "stasjon" <;>
      by_cases h2 : strEndsWith name " S" <;>
        simp only [h1, h2, Bool.not_true, Bool.not_false, if_true, if_false,
          ite_true, ite_false, List.cons_append, List.nil_append,
          List.append_assoc] <;>
          exact ⟨_, rfl⟩
  obtain ⟨t, ht⟩ := hshape
  have hcons : dedupFirst (name :: t) = name :: dedupFirstAux [name] t := by
    rw [dedupFirst, dedupFirstAux_cons]
    simp
  have hnodup := nodup_dedupFirstAux (name :: t) []
  rw [show dedupFirstAux [] (name :: t) = dedupFirst (name :: t) from rfl, hcons] at hnodup
  rw [ht, hcons]
  exact ⟨by simp, hnodup, by simp⟩

lemma mkInfo_eval (name : String) (delays : List Int) (count : Nat) (avg : ℚ)
    (h : ((sumDelays delays : Int) : ℚ) / (count : ℚ) = avg) :
    mkInfo name ⟨delays, count⟩ =
      ⟨name, avg, jsMaxInt delays, count, getDelayCategory avg⟩ := by
  simp [mkInfo, h]

lemma aggregate_oslo_eval :
    aggregateDelaysByStation railwayStations [osloJourneyA, osloJourneyB] =
      [("Oslo S",
        { stationName := "Oslo S", avgDelay := 60, maxDelay := 90,
          journeyCount := 2, delayCategory := DelayCategory.minor })] := by
  have hmap : ([osloJourneyA, osloJourneyB] : List TransitJourney).foldl
      (processJourney railwayStations) [] = [("Oslo S", ⟨[30, 90], 2⟩)] := by
    decide
  have havg : ((sumDelays [30, 90] : Int) : ℚ) / ((2 : Nat) : ℚ) = 60 := by
    norm_num [sumDelays, List.foldl]
  rw [aggregateDelaysByStation, hmap]
  simp only [List.map_cons, List.map_nil]
  rw [mkInfo_eval _ _ _ _ havg,
    show jsMaxInt [30, 90] = 90 from by decide,
    show getDelayCategory 60 = DelayCategory.minor from by decide]

/-- C1, counterexample: on the two-record input of the claim (delays 30 and
90 resolving to "Oslo S" via last stop and next stop respectively) the code
classifies the mean delay 60 as "minor", not "on-time": `getDelayCategory`
uses a strict `< 60` bound, and the mean is exactly 60. -/
theorem C1_counterexample :
    (lookupInfo (aggregateDelaysByStation railwayStations
          [osloJourneyA, osloJourneyB]) "Oslo S").map
        (fun info => info.delayCategory) = some DelayCategory.minor
    ∧ DelayCategory.minor ≠ DelayCategory.onTime := by
  rw [aggregate_oslo_eval]
  exact ⟨by decide, by decide⟩

/-- C1, amended: the two-record input yields the single entry for "Oslo S"
with avgDelay 60, maxDelay 90, journeyCount 2 and delayCategory "minor"
(computed from the mean 60, which is not strictly below the 60-second
on-time threshold). -/
theorem C1_aggregate_oslo :
    aggregateDelaysByStation railwayStations [osloJourneyA, osloJourneyB] =
      [("Oslo S",
        { stationName := "Oslo S", avgDelay := 60, maxDelay := 90,
          journeyCount := 2, delayCategory := DelayCategory.minor })] :=
  aggregate_oslo_eval

lemma aggregate_neg_eval :
    aggregateDelaysByStation railwayStations [negJourneyA, negJourneyB] =
      [("Oslo S",
        { stationName := "Oslo S", avgDelay := -75, maxDelay := -60,
          journeyCount := 2, delayCategory := DelayCategory.minor })] := by
  have hmap : ([negJourneyA, negJourneyB] : List TransitJourney).foldl
      (processJourney railwayStations) [] = [("Oslo S", ⟨[-90, -60], 2⟩)] := by
    decide
  have havg : ((sumDelays [-90, -60] : Int) : ℚ) / ((2 : Nat) : ℚ) = -75 := by
    norm_num [sumDelays, List.foldl]
  rw [aggregateDelaysByStation, hmap]
  simp only [List.map_cons, List.map_nil]
  rw [mkInfo_eval _ _ _ _ havg,
    show jsMaxInt [-90, -60] = -60 from by decide,
    show getDelayCategory (-75) = DelayCategory.minor from by decide]

/-- C2, counterexample: with contributing delays -90 and -60 the code stores
`Math.max(-90, -60) = -60` as maxDelay, while the maximum of the absolute
values is 90; with all-negative delays maxDelay is the signed maximum, not
the largest magnitude. -/
theorem C2_counterexample :
    (lookupInfo (aggregateDelaysByStation railwayStations
          [negJourneyA, negJourneyB]) "Oslo S").map
        (fun info => info.maxDelay) = some (-60)
    ∧ jsMaxInt ([(-90 : Int), -60].map (fun d => |d|)) = 90
    ∧ ((-60 : Int)) ≠ 90 := by
  rw [aggregate_neg_eval]
  exact ⟨by decide, by decide, by decide⟩

/-- C4: `find3DStationName` prefers the first exact normalized match over
any substring match regardless of iteration order; only when no exact match
exists does it return the first (in iteration order) bidirectional substring
match; it returns not-found exactly when both passes fail. -/
theorem C4_findCanonicalMatch (stations : List String) (externalName : String) :
    (∀ s, stations.find? (exactMatch (normalizeStationName externalName)) = some s →
        find3DStationNameIn stations externalName = some s)
    ∧ (stations.find? (exactMatch (normalizeStationName externalName)) = none →
        find3DStationNameIn stations externalName =
          stations.find? (substrMatch (normalizeStationName externalName)))
    ∧ (find3DStationNameIn stations externalName = none ↔
        stations.find? (exactMatch (normalizeStationName externalName)) = none
        ∧ stations.find? (substrMatch (normalizeStationName externalName)) = none) := by
  cases h : stations.find? (exactMatch (normalizeStationName externalName)) with
  | some s =>
    refine ⟨fun s' hs' => ?_, fun hn => Option.noConfusion hn, ?_⟩
    · have hss : s = s' := Option.some.inj hs'
      subst hss
      simp [find3DStationNameIn, h]
    · simp [find3DStationNameIn, h]
  | none =>
    refine ⟨fun s' hs' => Option.noConfusion hs', fun _ => ?_, ?_⟩
    · simp [find3DStationNameIn, h]
    · simp [find3DStationNameIn, h]

theorem C4_findCanonicalMatch_witness :
    railwayStations.find? (exactMatch (normalizeStationName "Oslo stasjon")) =
      some "Oslo S"
    ∧ find3DStationNameIn railwayStations "Oslo stasjon" = some "Oslo S" :=
  ⟨by decide,
    (C4_findCanonicalMatch railwayStations "Oslo stasjon").1 "Oslo S" (by decide)⟩

lemma lookupCache_cacheSet_ne (cache : List (String × Option String))
    (st k : String) (v : Option String) (hne : k ≠ st) :
    lookupCache (cacheSet cache st v) k = lookupCache cache k := by
  induction cache with
  | nil =>
    simp only [cacheSet, lookupCache, List.find?]
    have : (st == k) = false := by simp [Ne.symm hne]
    simp [this]
  | cons p rest ih =>
    by_cases hp : p.1 == st
    · simp only [lookupCache, cacheSet, hp, if_true, List.find?]
      have h1 : (p.1 == k) = false := by
        have := eq_of_beq hp
        simp [this, Ne.symm hne]
      simp [h1]
    · simp only [lookupCache, cacheSet, hp, if_false, List.find?]
      cases hk : p.1 == k
      · simpa [lookupCache, hk] using ih
      · simp [hk]

/-- C9: the `stationNameCache` is monotonic and short-circuiting: a call to
`findWorkingApiName` never removes or overwrites an existing entry (working
name or not-found sentinel), and a call for a station whose entry is already
present returns the cached value unchanged with zero HTTP probes. -/
theorem C9_cache_monotone_shortcircuit (probe : String → Bool)
    (cache : List (String × Option String)) (stationName : String) :
    (∀ k v, lookupCache cache k = some v →
        lookupCache (findWorkingApiName probe cache stationName).2.1 k = some v)
    ∧ (∀ v, lookupCache cache stationName = some v →
        findWorkingApiName probe cache stationName = (v, cache, 0)) := by
  cases h : lookupCache cache stationName with
  | some v0 =>
    refine ⟨fun k v hk => ?_, fun v hv => ?_⟩
    · simp only [findWorkingApiName, h]
      exact hk
    · have hvv : v0 = v := Option.some.inj hv
      subst hvv
      simp [findWorkingApiName, h]
  | none =>
    refine ⟨fun k v hk => ?_, fun v hv => Option.noConfusion hv⟩
    have hne : k ≠ stationName := by
      intro he
      rw [he] at hk
      rw [h] at hk
      exact Option.noConfusion hk
    simp only [findWorkingApiName, h]
    rw [lookupCache_cacheSet_ne _ _ _ _ hne]
    exact hk

theorem C9_cache_witness :
    lookupCache
        (findWorkingApiName (fun _ => true) [("X", none)] "X").2.1 "X" = some none
    ∧ findWorkingApiName (fun _ => true) [("X", none)] "X" =
        (none, [("X", none)], 0) :=
  ⟨(C9_cache_monotone_shortcircuit (fun _ => true) [("X", none)] "X").1 "X" none
      (by decide),
    (C9_cache_monotone_shortcircuit (fun _ => true) [("X", none)] "X").2 none
      (by decide)⟩

lemma lookupSt_pushDelay_self (m : List (String × StAcc)) (k : String) (d : Int) :
    lookupSt (pushDelay m k d) k =
      some (match lookupSt m k with
            | none => ⟨[d], 1⟩
            | some a => ⟨a.delays ++ [d], a.count + 1⟩) := by
  induction m with
  | nil => simp [pushDelay, lookupSt]
  | cons p rest ih =>
    rcases p with ⟨k', acc⟩
    by_cases h : k' == k
    · simp [pushDelay, lookupSt, h, List.find?]
    · simp only [pushDelay, h, if_false, Bool.false_eq_true]
      simpa [lookupSt, List.find?, h] using ih

lemma lookupSt_pushDelay_ne (m : List (String × StAcc)) (k : String) (d : Int)
    (q : String) (h : q ≠ k) :
    lookupSt (pushDelay m k d) q = lookupSt m q := by
  induction m with
  | nil =>
    have : (k == q) = false := by simp [Ne.symm h]
    simp [pushDelay, lookupSt, List.find?, this]
  | cons p rest ih =>
    rcases p with ⟨k', acc⟩
    by_cases hk : k' == k
    · have : (k' == q) = false := by
        have := eq_of_beq hk
        simp [this, Ne.symm h]
      simp [pushDelay, lookupSt, List.find?, hk, this]
    · simp only [pushDelay, hk, if_false, Bool.false_eq_true]
      cases hq : k' == q
      · simpa [lookupSt, List.find?, hq] using ih
      · simp [lookupSt, List.find?, hq]

lemma appendAcc_single (o : Option StAcc) (d : Int) :
    appendAcc o [d] =
      some (match o with
            | none => ⟨[d], 1⟩
            | some a => ⟨a.delays ++ [d], a.count + 1⟩) := by
  cases o <;> rfl

lemma lookupSt_foldl_push (ps : List (String × Int)) (m : List (String × StAcc))
    (k : String) :
    lookupSt (ps.foldl (fun acc p => pushDelay acc p.1 p.2) m) k =
      appendAcc (lookupSt m k) ((ps.filter (fun p => p.1 == k)).map (fun p => p.2)) := by
  induction ps generalizing m with
  | nil => simp [appendAcc]
  | cons p ps ih =>
    simp only [List.foldl_cons]
    rw [ih]
    by_cases h : p.1 == k
    · rw [show List.filter (fun q => q.1 == k) (p :: ps) =
          p :: List.filter (fun q => q.1 == k) ps from by
            rw [List.filter_cons]; simp [h],
        List.map_cons]
      have hk : p.1 = k := eq_of_beq h
      rw [hk, lookupSt_pushDelay_self, show ∀ o ds, appendAcc o (p.2 :: ds) =
        appendAcc (appendAcc o [p.2]) ds from fun o ds => by
          cases o <;> simp [appendAcc], appendAcc_single]
    · rw [show List.filter (fun q => q.1 == k) (p :: ps) =
          List.filter (fun q => q.1 == k) ps from by
            rw [List.filter_cons]; simp [h],
        lookupSt_pushDelay_ne _ _ _ _ (fun he => h (by simp [he]))]

lemma processJourney_eq_contribs (stations : List String)
    (m : List (String × StAcc)) (j : TransitJourney) :
    processJourney stations m j =
      (journeyContributions stations j).foldl
        (fun acc p => pushDelay acc p.1 p.2) m := by
  unfold processJourney journeyContributions
  cases h1 : find3DStationNameIn stations j.last_stop_name with
  | none =>
    cases h2 : find3DStationNameIn stations j.next_stop_name <;> simp
  | some s1 =>
    cases h2 : find3DStationNameIn stations j.next_stop_name with
    | none => simp
    | some s2 =>
      by_cases he : (some s1 : Option String) = some s2 <;> simp [he]

lemma foldl_processJourney (stations : List String) (js : List TransitJourney)
    (m : List (String × StAcc)) :
    js.foldl (processJourney stations) m =
      (js.flatMap (journeyContributions stations)).foldl
        (fun acc p => pushDelay acc p.1 p.2) m := by
  induction js generalizing m with
  | nil => simp
  | cons j js ih =>
    simp only [List.foldl_cons, List.flatMap_cons, List.foldl_append]
    rw [processJourney_eq_contribs, ih]

lemma lookupSt_buildMap (stations : List String) (js : List TransitJourney)
    (k : String) :
    lookupSt (js.foldl (processJourney stations) []) k =
      appendAcc none (contribDelays stations js k) := by
  rw [foldl_processJourney, lookupSt_foldl_push]
  rfl

lemma appendAcc_some (a : StAcc) (ds : List Int) :
    appendAcc (some a) ds = some ⟨a.delays ++ ds, a.count + ds.length⟩ := by
  induction ds generalizing a with
  | nil => simp [appendAcc]
  | cons d ds ih =>
    show appendAcc (some ⟨a.delays ++ [d], a.count + 1⟩) ds = _
    rw [ih]
    simp only [List.append_assoc, List.singleton_append, List.length_cons]
    exact congrArg some (by simp [Nat.add_comm, Nat.add_assoc, Nat.add_left_comm])

lemma appendAcc_none_eq (ds : List Int) :
    appendAcc none ds =
      if ds = [] then none else some ⟨ds, ds.length⟩ := by
  cases ds with
  | nil => rfl
  | cons d ds =>
    show appendAcc (some ⟨[d], 1⟩) ds = _
    rw [appendAcc_some]
    simp [Nat.add_comm]

lemma lookupInfo_map_mkInfo (m : List (String × StAcc)) (k : String) :
    lookupInfo (m.map (fun p => (p.1, mkInfo p.1 p.2))) k =
      (lookupSt m k).map (fun acc => mkInfo k acc) := by
  induction m with
  | nil => rfl
  | cons p rest ih =>
    by_cases h : p.1 == k
    · have hk : p.1 = k := eq_of_beq h
      simp [lookupInfo, lookupSt, List.find?, h, hk]
    · simpa [lookupInfo, lookupSt, List.find?, h] using ih

lemma lookupInfo_aggregate (stations : List String) (js : List TransitJourney)
    (k : String) :
    lookupInfo (aggregateDelaysByStation stations js) k =
      if contribDelays stations js k = [] then none
      else some (mkInfo k
        ⟨contribDelays stations js k, (contribDelays stations js k).length⟩) := by
  rw [aggregateDelaysByStation, lookupInfo_map_mkInfo, lookupSt_buildMap,
    appendAcc_none_eq]
  split_ifs <;> simp

lemma mem_contribDelays (stations : List String) (js : List TransitJourney)
    (k : String) (d : Int) :
    d ∈ contribDelays stations js k ↔
      ∃ j ∈ js, (k, d) ∈ journeyContributions stations j := by
  simp only [contribDelays, List.mem_map, List.mem_filter, List.mem_flatMap]
  constructor
  · rintro ⟨⟨k', d'⟩, ⟨⟨j, hj, hmem⟩, hk⟩, rfl⟩
    have : k' = k := by simpa using hk
    subst this
    exact ⟨j, hj, hmem⟩
  · rintro ⟨j, hj, hmem⟩
    exact ⟨(k, d), ⟨⟨j, hj, hmem⟩, by simp⟩, rfl⟩

/-- C5: inside `aggregateDelaysByStation`, one record's effect on the
station map is exactly the fold of its contribution list; that list has at
most two entries (with distinct stations when there are two); a record whose
two stop names resolve to the same canonical station contributes exactly
once; a record with an unresolvable last stop and a resolvable next stop
contributes exactly once, to the next stop's station; a fully unresolvable
record is dropped without error. -/
theorem C5_record_contribution (stations : List String)
    (m : List (String × StAcc)) (j : TransitJourney) :
    processJourney stations m j =
      (journeyContributions stations j).foldl
        (fun acc p => pushDelay acc p.1 p.2) m
    ∧ (journeyContributions stations j).length ≤ 2
    ∧ (∀ s, find3DStationNameIn stations j.last_stop_name = some s →
        find3DStationNameIn stations j.next_stop_name = some s →
        journeyContributions stations j = [(s, j.recorded_delay_seconds)])
    ∧ (∀ s, find3DStationNameIn stations j.last_stop_name = none →
        find3DStationNameIn stations j.next_stop_name = some s →
        journeyContributions stations j = [(s, j.recorded_delay_seconds)])
    ∧ (find3DStationNameIn stations j.last_stop_name = none →
        find3DStationNameIn stations j.next_stop_name = none →
        journeyContributions stations j = [])
    ∧ (∀ p q, journeyContributions stations j = [p, q] → p.1 ≠ q.1) := by
  refine ⟨processJourney_eq_contribs _ _ _, ?_, ?_, ?_, ?_, ?_⟩
  · unfold journeyContributions
    cases h1 : find3DStationNameIn stations j.last_stop_name <;>
      cases h2 : find3DStationNameIn stations j.next_stop_name <;>
        (simp; try split_ifs <;> simp)
  · intro s hl hn
    unfold journeyContributions
    simp [hl, hn]
  · intro s hl hn
    unfold journeyContributions
    simp [hl, hn]
  · intro hl hn
    unfold journeyContributions
    simp [hl, hn]
  · intro p q
    unfold journeyContributions
    cases h1 : find3DStationNameIn stations j.last_stop_name with
    | none =>
      cases h2 : find3DStationNameIn stations j.next_stop_name <;> simp
    | some s1 =>
      cases h2 : find3DStationNameIn stations j.next_stop_name with
      | none => simp
      | some s2 =>
        by_cases he : (some s1 : Option String) = some s2
        · simp [he]
        · simp only [he, if_false, List.singleton_append, List.cons.injEq,
            and_imp]
          intro hp hq _
          subst hp
          subst hq
          simpa using fun hs => he (by rw [hs])

theorem C5_record_contribution_witness :
    journeyContributions railwayStations bothOsloJourney =
      [("Oslo S", (42 : Int))]
    ∧ journeyContributions railwayStations osloJourneyB =
      [("Oslo S", (90 : Int))] :=
  ⟨(C5_record_contribution railwayStations [] bothOsloJourney).2.2.1 "Oslo S"
      (by decide) (by decide),
   (C5_record_contribution railwayStations [] osloJourneyB).2.2.2.1 "Oslo S"
      (by decide) (by decide)⟩

/-- C10: the aggregate has an entry for a canonical station iff some record
contributed a delay to it; the empty input yields the empty mapping; every
entry has journeyCount at least 1, so the average-delay division is by a
nonzero count. -/
theorem C10_aggregate_safety (stations : List String)
    (journeys : List TransitJourney) :
    (∀ k, lookupInfo (aggregateDelaysByStation stations journeys) k ≠ none ↔
        ∃ j ∈ journeys, ∃ d : Int, (k, d) ∈ journeyContributions stations j)
    ∧ aggregateDelaysByStation stations [] = []
    ∧ (∀ k info,
        lookupInfo (aggregateDelaysByStation stations journeys) k = some info →
        1 ≤ info.journeyCount
        ∧ (info.journeyCount : ℚ) ≠ 0
        ∧ info.avgDelay =
            ((sumDelays (contribDelays stations journeys k) : Int) : ℚ) /
              (info.journeyCount : ℚ)) := by
  refine ⟨fun k => ?_, rfl, fun k info h => ?_⟩
  · rw [lookupInfo_aggregate]
    by_cases hc : contribDelays stations journeys k = []
    · rw [if_pos hc]
      constructor
      · intro hfalse
        exact absurd rfl hfalse
      · rintro ⟨j, hj, d, hd⟩
        have hmem : d ∈ contribDelays stations journeys k :=
          (mem_contribDelays stations journeys k d).mpr ⟨j, hj, hd⟩
        rw [hc] at hmem
        exact absurd hmem (List.not_mem_nil d)
    · rw [if_neg hc]
      constructor
      · intro _
        obtain ⟨d, hd⟩ := List.exists_mem_of_ne_nil _ hc
        obtain ⟨j, hj, hmem⟩ := (mem_contribDelays stations journeys k d).mp hd
        exact ⟨j, hj, d, hmem⟩
      · intro _
        simp
  · rw [lookupInfo_aggregate] at h
    by_cases hc : contribDelays stations journeys k = []
    · rw [if_pos hc] at h
      exact Option.noConfusion h
    · rw [if_neg hc] at h
      have hi := Option.some.inj h
      subst hi
      refine ⟨?_, ?_, ?_⟩
      · have : 0 < (contribDelays stations journeys k).length :=
          List.length_pos.mpr hc
        simpa [mkInfo] using this
      · have h0 : (contribDelays stations journeys k).length ≠ 0 :=
          Nat.pos_iff_ne_zero.mp (List.length_pos.mpr hc)
        simp only [mkInfo]
        exact_mod_cast Nat.cast_ne_zero.mpr h0
      · simp [mkInfo]

theorem C10_aggregate_safety_witness :
    lookupInfo (aggregateDelaysByStation railwayStations
        [osloJourneyA, osloJourneyB]) "Oslo S" =
      some { stationName := "Oslo S", avgDelay := 60, maxDelay := 90,
             journeyCount := 2, delayCategory := DelayCategory.minor }
    ∧ 1 ≤ (2 : Nat) ∧ ((2 : Nat) : ℚ) ≠ 0
    ∧ (60 : ℚ) = ((sumDelays (contribDelays railwayStations
          [osloJourneyA, osloJourneyB] "Oslo S") : Int) : ℚ) / ((2 : Nat) : ℚ) := by
  have h : lookupInfo (aggregateDelaysByStation railwayStations
      [osloJourneyA, osloJourneyB]) "Oslo S" =
      some { stationName := "Oslo S", avgDelay := 60, maxDelay := 90,
             journeyCount := 2, delayCategory := DelayCategory.minor } := by
    rw [aggregate_oslo_eval]
    rfl
  have hr := (C10_aggregate_safety railwayStations
      [osloJourneyA, osloJourneyB]).2.2 "Oslo S" _ h
  exact ⟨h, hr.1, hr.2.1, hr.2.2⟩

/-- C2, amended: for every entry of the aggregate, maxDelay is
`Math.max` over the signed contributing delays (the code takes the signed
maximum, not the maximum of absolute values). -/
theorem C2_maxDelay_signed_max (stations : List String)
    (journeys : List TransitJourney) (k : String) (info : StationDelayInfo)
    (h : lookupInfo (aggregateDelaysByStation stations journeys) k = some info) :
    info.maxDelay = jsMaxInt (contribDelays stations journeys k) := by
  rw [lookupInfo_aggregate] at h
  by_cases hc : contribDelays stations journeys k = []
  · rw [if_pos hc] at h
    exact Option.noConfusion h
  · rw [if_neg hc] at h
    have hi := Option.some.inj h
    subst hi
    simp [mkInfo]

theorem C2_maxDelay_signed_max_witness :
    lookupInfo (aggregateDelaysByStation railwayStations
        [negJourneyA, negJourneyB]) "Oslo S" =
      some { stationName := "Oslo S", avgDelay := -75, maxDelay := -60,
             journeyCount := 2, delayCategory := DelayCategory.minor }
    ∧ (-60 : Int) =
        jsMaxInt (contribDelays railwayStations [negJourneyA, negJourneyB]
          "Oslo S") := by
  have h : lookupInfo (aggregateDelaysByStation railwayStations
      [negJourneyA, negJourneyB]) "Oslo S" =
      some { stationName := "Oslo S", avgDelay := -75, maxDelay := -60,
             journeyCount := 2, delayCategory := DelayCategory.minor } := by
    rw [aggregate_neg_eval]
    rfl
  exact ⟨h, C2_maxDelay_signed_max railwayStations [negJourneyA, negJourneyB]
      "Oslo S" _ h⟩

lemma lowerChar_idem (c : Char) : lowerChar (lowerChar c) = lowerChar c := by
  cases h : lowerPairs.find? (fun p => p.1 == c) with
  | none =>
    have hc : lowerChar c = c := by rw [lowerChar, h]
    rw [hc]
    exact hc
  | some p =>
    have hc : lowerChar c = p.2 := by rw [lowerChar, h]
    have hp : p ∈ lowerPairs := List.mem_of_find?_eq_some h
    have hfix : ∀ q ∈ lowerPairs, lowerChar q.2 = q.2 := by decide
    rw [hc]
    exact hfix p hp

lemma mem_of_mem_trimChars {c : Char} {s : List Char} (h : c ∈ trimChars s) :
    c ∈ s := by
  unfold trimChars at h
  have hpre := List.rdropWhile_prefix isSpaceChar (s.dropWhile isSpaceChar)
  have h1 : c ∈ s.dropWhile isSpaceChar := hpre.subset h
  have hsuf : s.dropWhile isSpaceChar <:+ s := List.dropWhile_suffix isSpaceChar
  exact hsuf.sublist.subset h1

lemma mem_of_mem_strip {c : Char} {w s : List Char}
    (h : c ∈ stripSuffixWithSpaces w s) : c ∈ s := by
  unfold stripSuffixWithSpaces at h
  split_ifs at h with hg
  · have h1 : c ∈ (s.reverse.drop w.length).dropWhile isSpaceChar :=
      List.mem_reverse.mp h
    have hsuf : (s.reverse.drop w.length).dropWhile isSpaceChar <:+ s.reverse.drop w.length :=
      List.dropWhile_suffix isSpaceChar
    have h2 : c ∈ s.reverse.drop w.length := hsuf.sublist.subset h1
    have h3 : c ∈ s.reverse := List.drop_subset _ _ h2
    exact List.mem_reverse.mp h3
  · exact h

lemma lowerChars_normChars (s : List Char) :
    lowerChars (normChars s) = normChars s := by
  have hfix : ∀ c ∈ normChars s, lowerChar c = c := by
    intro c hc
    have h1 : c ∈ stripSuffixWithSpaces ['s']
        (stripSuffixWithSpaces "stasjon".data (lowerChars s)) :=
      mem_of_mem_trimChars hc
    have h2 := mem_of_mem_strip h1
    have h3 := mem_of_mem_strip h2
    obtain ⟨c', _, rfl⟩ := List.mem_map.mp h3
    exact lowerChar_idem c'
  exact (List.map_congr_left hfix).trans (List.map_id _)

lemma strip_eq_of_no_suffix {w s : List Char} (h : hasStripSuffix w s = false) :
    stripSuffixWithSpaces w s = s := by
  simp [stripSuffixWithSpaces, h]

lemma strip_length_le (w s : List Char) :
    (stripSuffixWithSpaces w s).length ≤ s.length := by
  unfold stripSuffixWithSpaces
  split_ifs with hg
  · have hsuf : (s.reverse.drop w.length).dropWhile isSpaceChar <:+ s.reverse.drop w.length :=
      List.dropWhile_suffix isSpaceChar
    calc ((s.reverse.drop w.length).dropWhile isSpaceChar).reverse.length
        = ((s.reverse.drop w.length).dropWhile isSpaceChar).length :=
          List.length_reverse _
      _ ≤ (s.reverse.drop w.length).length := hsuf.sublist.length_le
      _ ≤ s.length := by simp [List.length_drop]
  · exact Nat.le_refl _

lemma strip_length_lt {w s : List Char} (hg : hasStripSuffix w s = true) :
    (stripSuffixWithSpaces w s).length < s.length := by
  unfold stripSuffixWithSpaces
  rw [if_pos hg]
  unfold hasStripSuffix at hg
  obtain ⟨-, hmatch⟩ := Bool.and_eq_true_iff.mp hg
  cases hdrop : s.reverse.drop w.length with
  | nil =>
    rw [hdrop] at hmatch
    exact absurd hmatch (by simp)
  | cons c cs =>
    rw [hdrop] at hmatch
    have hsp : isSpaceChar c = true := hmatch
    have hlen : cs.length + 1 = s.length - w.length := by
      have := congrArg List.length hdrop
      simp only [List.length_drop, List.length_reverse, List.length_cons] at this
      omega
    have hsuf : cs.dropWhile isSpaceChar <:+ cs := List.dropWhile_suffix isSpaceChar
    calc ((c :: cs).dropWhile isSpaceChar).reverse.length
        = ((c :: cs).dropWhile isSpaceChar).length := List.length_reverse _
      _ = (cs.dropWhile isSpaceChar).length := by
          rw [List.dropWhile_cons_of_pos hsp]
      _ ≤ cs.length := hsuf.sublist.length_le
      _ < s.length := by omega

lemma trim_length_le (s : List Char) : (trimChars s).length ≤ s.length := by
  unfold trimChars
  have hpre := List.rdropWhile_prefix isSpaceChar (s.dropWhile isSpaceChar)
  have hsuf : s.dropWhile isSpaceChar <:+ s := List.dropWhile_suffix isSpaceChar
  exact Nat.le_trans hpre.sublist.length_le hsuf.sublist.length_le

lemma dropWhile_trimChars (s : List Char) :
    (trimChars s).dropWhile isSpaceChar = trimChars s := by
  unfold trimChars
  have hu : (s.dropWhile isSpaceChar).dropWhile isSpaceChar
      = s.dropWhile isSpaceChar := List.dropWhile_idempotent _ _
  have hhead := List.dropWhile_eq_self_iff.mp hu
  apply List.dropWhile_eq_self_iff.mpr
  intro hl
  have hpre := List.rdropWhile_prefix isSpaceChar (s.dropWhile isSpaceChar)
  have hlt : 0 < (s.dropWhile isSpaceChar).length :=
    Nat.lt_of_lt_of_le hl hpre.sublist.length_le
  have hget := hpre.getElem hl
  simp only [List.get_eq_getElem]
  rw [hget]
  simpa only [List.get_eq_getElem] using hhead hlt

lemma trimChars_idem (s : List Char) :
    trimChars (trimChars s) = trimChars s := by
  conv_lhs => rw [trimChars]
  rw [dropWhile_trimChars]
  show List.rdropWhile isSpaceChar
      (List.rdropWhile isSpaceChar (s.dropWhile isSpaceChar)) = _
  rw [List.rdropWhile_idempotent]
  rfl

lemma normChars_normChars_iff (s : List Char) :
    normChars (normChars s) = normChars s ↔
      (hasStripSuffix "stasjon".data (normChars s) = false
       ∧ hasStripSuffix ['s'] (normChars s) = false) := by
  set y := normChars s with hy
  have hlow : lowerChars y = y := by rw [hy]; exact lowerChars_normChars s
  have htrim : trimChars y = y := by
    rw [hy]
    unfold normChars
    exact trimChars_idem _
  have hnorm_y : normChars y =
      trimChars (stripSuffixWithSpaces ['s']
        (stripSuffixWithSpaces "stasjon".data y)) := by
    show trimChars (stripSuffixWithSpaces ['s']
        (stripSuffixWithSpaces "stasjon".data (lowerChars y))) = _
    rw [hlow]
  constructor
  · intro hid
    cases h1 : hasStripSuffix "stasjon".data y with
    | true =>
      exfalso
      have l1 : (stripSuffixWithSpaces "stasjon".data y).length < y.length :=
        strip_length_lt h1
      have l2 : (stripSuffixWithSpaces ['s']
          (stripSuffixWithSpaces "stasjon".data y)).length ≤
            (stripSuffixWithSpaces "stasjon".data y).length :=
        strip_length_le _ _
      have l3 : (normChars y).length ≤ (stripSuffixWithSpaces ['s']
          (stripSuffixWithSpaces "stasjon".data y)).length := by
        rw [hnorm_y]
        exact trim_length_le _
      rw [hid] at l3
      omega
    | false =>
      cases h2 : hasStripSuffix ['s'] y with
      | true =>
        exfalso
        have e1 : stripSuffixWithSpaces "stasjon".data y = y :=
          strip_eq_of_no_suffix h1
        have l1 : (stripSuffixWithSpaces ['s'] y).length < y.length :=
          strip_length_lt h2
        have l3 : (normChars y).length ≤
            (stripSuffixWithSpaces ['s'] y).length := by
          rw [hnorm_y, e1]
          exact trim_length_le _
        rw [hid] at l3
        omega
      | false => exact ⟨rfl, rfl⟩
  · rintro ⟨h1, h2⟩
    rw [hnorm_y, strip_eq_of_no_suffix h1, strip_eq_of_no_suffix h2, htrim]

/-- C3, counterexample: `normalizeStationName` is not idempotent. On
"x stasjon stasjon" one application strips only one " stasjon" suffix,
yielding "x stasjon"; a second application strips again, yielding "x". -/
theorem C3_counterexample :
    normalizeStationName (normalizeStationName "x stasjon stasjon") ≠
      normalizeStationName "x stasjon stasjon" := by
  decide

/-- C3, amended: `normalize(normalize x) = normalize x` holds exactly when
the normalized form of `x` does not itself end in whitespace followed by
"stasjon", nor in whitespace followed by "s"; since each replace strips only
one suffix occurrence, such strings (e.g. "x stasjon stasjon") defeat
idempotence. -/
theorem C3_normalize_idem_iff (x : String) :
    normalizeStationName (normalizeStationName x) = normalizeStationName x ↔
      (hasStripSuffix "stasjon".data (normalizeStationName x).data = false
       ∧ hasStripSuffix ['s'] (normalizeStationName x).data = false) := by
  have hd : ∀ y : String, (normalizeStationName y).data = normChars y.data :=
    fun _ => rfl
  rw [hd x]
  constructor
  · intro h
    have h1 := congrArg String.data h
    rw [hd, hd] at h1
    exact (normChars_normChars_iff x.data).mp h1
  · intro hb
    have h' := (normChars_normChars_iff x.data).mpr hb
    apply String.ext
    rw [hd, hd]
    exact h'

end Vyer
